import Mathlib

/-!
Shallow embedding of the two 2D discrete-convolution programs of this
repository (`src/conv2d.c` and `src/unnamed/part_000`), with theorems
settling the specification claims about them.

Modelling conventions:
* C `float` values are modelled as exact rationals (`ℚ`); the claims under
  study are about which taps are read, which cells are written, loop
  geometry and return codes, and about agreement of two summation orders,
  all of which are faithfully captured in exact arithmetic.
* A flat C buffer together with the memory around it is modelled as a total
  function `Int → ℚ`: the buffer of an `H × W` matrix occupies flat indices
  `0 .. H*W - 1`; an index outside that range is a read of surrounding
  memory (the C programs do perform such reads).
* C `int` scalars are modelled as `Int`.  All divisions that the claims
  depend on are applied to nonnegative operands, where C truncating
  division and Lean's Euclidean division agree.
* A C `for (x = lo; x <= hi; x++)` loop is modelled as the list
  `crange lo hi`; each convolver returns the row-major list of the values
  it writes into its output buffer, paired with its C `return` value.
-/

/-- The index macro `IDX(row, col, stride)` of both source files:
`((row) * (stride) + (col))`. -/
def IDX (row col stride : Int) : Int := row * stride + col

/-- The iteration domain of the C loop `for (x = lo; x <= hi; x++)`. -/
def crange (lo hi : Int) : List Int :=
  (List.range (hi + 1 - lo).toNat).map (fun (t : Nat) => lo + (t : Int))

/-- The tap-offset range used on one kernel axis by every convolver in the
repository: with `M = kDim / 2` and `M_offset = kDim % 2 == 0 ? 1 : 0`,
the loop is `for (i = -M; i <= M - M_offset; i++)`. -/
def tapOffsets (kDim : Int) : List Int :=
  crange (-(kDim / 2)) (kDim / 2 - (if kDim % 2 = 0 then 1 else 0))

namespace Part000

/-- The tap read of `conv2d` and `parallel_conv2d` in `src/unnamed/part_000`
(lines 147–154 and 197–204), including the guard exactly as written in the
source: `col >= 0 && col < H && col >= 0 && row < W`, where `col = n+i` and
`row = k+j` (the test `col >= 0` appears twice; `row >= 0` is not tested). -/
def tap (f : Int → ℚ) (H W n k i j : Int) : ℚ :=
  let col := n + i
  let row := k + j
  if 0 ≤ col ∧ col < H ∧ 0 ≤ col ∧ row < W then f (IDX col row W) else 0

/-- The accumulation for one output cell `(n, k)` of `conv2d` in
`src/unnamed/part_000` (lines 143–158): `i` outer loop, `j` inner loop,
with kernel read `g[IDX(i+M, j+N, kW)]`. -/
def cell (f : Int → ℚ) (H W : Int) (g : Int → ℚ) (kH kW : Int)
    (n k : Int) : ℚ :=
  ((tapOffsets kH).map (fun i =>
    ((tapOffsets kW).map (fun j =>
      tap f H W n k i j * g (IDX (i + kH / 2) (j + kW / 2) kW))).sum)).sum

/-- The accumulation for one output cell `(n, k)` of `parallel_conv2d` in
`src/unnamed/part_000` (lines 190–208): the loop nest is interchanged
(`j` outer, `i` inner, the `omp simd reduction` summation), with the same
guard and the same kernel read as the serial path. -/
def parallelCell (f : Int → ℚ) (H W : Int) (g : Int → ℚ) (kH kW : Int)
    (n k : Int) : ℚ :=
  ((tapOffsets kW).map (fun j =>
    ((tapOffsets kH).map (fun i =>
      tap f H W n k i j * g (IDX (i + kH / 2) (j + kW / 2) kW))).sum)).sum

/-- Embedding of `conv2d` of `src/unnamed/part_000` (lines 130–164): writes
`output[IDX(n,k,W)]` for `n ∈ [0,H)`, `k ∈ [0,W)` and executes `return 0`.
The first component is the row-major content of the output buffer, the
second the C return value. -/
def conv2d (f : Int → ℚ) (H W : Int) (g : Int → ℚ) (kH kW : Int) :
    List ℚ × Int :=
  (((crange 0 (H - 1)).map (fun n =>
      (crange 0 (W - 1)).map (fun k => cell f H W g kH kW n k))).flatten, 0)

/-- Embedding of `parallel_conv2d` of `src/unnamed/part_000` (lines 177–213): the
`collapse(2)` parallel loop writes `padded_output.arr[IDX(n,k,W)]` for
`n ∈ [0,H)`, `k ∈ [0,W)`, each cell written by exactly one iteration, and
the function executes `return 0`. -/
def parallel_conv2d (f : Int → ℚ) (H W : Int) (g : Int → ℚ) (kH kW : Int) :
    List ℚ × Int :=
  (((crange 0 (H - 1)).map (fun n =>
      (crange 0 (W - 1)).map (fun k =>
        parallelCell f H W g kH kW n k))).flatten, 0)

end Part000

namespace ConvC

/-- The accumulation for one output cell of `conv2d` in `src/conv2d.c`
(lines 153–159): the feature buffer is read with stride
`total_width = W + w_padding*2` and no bounds test
(`f[IDX(n+i, k+j, total_width)] * g[IDX(i+M, j+N, kW)]`). -/
def cell (f : Int → ℚ) (W : Int) (g : Int → ℚ) (kH kW w_padding : Int)
    (n k : Int) : ℚ :=
  let total_width := W + w_padding * 2
  ((tapOffsets kH).map (fun i =>
    ((tapOffsets kW).map (fun j =>
      f (IDX (n + i) (k + j) total_width) *
        g (IDX (i + kH / 2) (j + kW / 2) kW))).sum)).sum

/-- Embedding of `conv2d` of `src/conv2d.c` (lines 137–165): iterates
`n ∈ [h_padding, total_height - h_padding)`,
`k ∈ [w_padding, total_width - w_padding)` over a padded feature buffer and
writes `output[IDX(n - h_padding, k - w_padding, W)]`; executes `return 0`. -/
def conv2d (f : Int → ℚ) (H W : Int) (g : Int → ℚ)
    (kH kW w_padding h_padding : Int) : List ℚ × Int :=
  let total_height := H + h_padding * 2
  let total_width := W + w_padding * 2
  (((crange h_padding (total_height - h_padding - 1)).map (fun n =>
      (crange w_padding (total_width - w_padding - 1)).map (fun k =>
        cell f W g kH kW w_padding n k))).flatten, 0)

/-- The tap read of `parallel_conv2d` in `src/conv2d.c` (lines 203–207):
`COL >= 0 && COL < H && ROW >= 0 && ROW < W` with `COL = n+i`, `ROW = k+j`
(this variant does test `ROW >= 0`). -/
def ptap (f : Int → ℚ) (H W n k i j : Int) : ℚ :=
  if 0 ≤ n + i ∧ n + i < H ∧ 0 ≤ k + j ∧ k + j < W then
    f (IDX (n + i) (k + j) W) else 0

/-- The accumulation for one output cell of `parallel_conv2d` in
`src/conv2d.c` (lines 194–212): `j` outer, `i` inner, bounds-checked taps. -/
def parallelCell (f : Int → ℚ) (H W : Int) (g : Int → ℚ) (kH kW : Int)
    (n k : Int) : ℚ :=
  ((tapOffsets kW).map (fun j =>
    ((tapOffsets kH).map (fun i =>
      ptap f H W n k i j * g (IDX (i + kH / 2) (j + kW / 2) kW))).sum)).sum

/-- Embedding of `parallel_conv2d` of `src/conv2d.c` (lines 178–218): the `collapse(2)`
loop writes `padded_output.arr[IDX(n,k,W)]` for `n ∈ [0,H)`, `k ∈ [0,W)`;
executes `return 0`. -/
def parallel_conv2d (f : Int → ℚ) (H W : Int) (g : Int → ℚ) (kH kW : Int) :
    List ℚ × Int :=
  (((crange 0 (H - 1)).map (fun n =>
      (crange 0 (W - 1)).map (fun k =>
        parallelCell f H W g kH kW n k))).flatten, 0)

/-- An explicitly materialized zero-padded copy of an `H × W` feature map
`feat` (row-major at stride `W`): a buffer of dimensions
`(H + 2*h_padding) × (W + 2*w_padding)` holding `feat` at the centre and
`0.0` in the padding ring. -/
def paddedCopy (feat : Int → ℚ) (H W w_padding h_padding : Int) :
    Int → ℚ :=
  fun idx =>
    let tw := W + w_padding * 2
    let r := idx / tw
    let c := idx % tw
    if h_padding ≤ r ∧ r < h_padding + H ∧ w_padding ≤ c ∧ c < w_padding + W
    then feat (IDX (r - h_padding) (c - w_padding) W) else 0

end ConvC

/-- A concrete 2 × 2 feature map, `[[1,2],[3,4]]` stored row-major in flat
indices `0..3`; surrounding memory is modelled as holding `0`. -/
def featSmall : Int → ℚ := fun idx =>
  if idx = 0 then 1 else if idx = 1 then 2 else
  if idx = 2 then 3 else if idx = 3 then 4 else 0

/-- A concrete 1 × 3 all-ones kernel, flat indices `0..2`. -/
def kernelRow3 : Int → ℚ := fun idx => if 0 ≤ idx ∧ idx < 3 then 1 else 0

/-- The 3 × 3 all-ones feature map of the spec's boundary example;
surrounding memory is modelled as holding `0`. -/
def featOnes3 : Int → ℚ := fun idx => if 0 ≤ idx ∧ idx < 9 then 1 else 0

/-- The 3 × 3 kernel with every entry `1/9`, from the spec's boundary
example. -/
def kernelNinth3 : Int → ℚ := fun idx => if 0 ≤ idx ∧ idx < 9 then (1 : ℚ)/9 else 0

theorem mem_crange {lo hi i : Int} : i ∈ crange lo hi ↔ lo ≤ i ∧ i ≤ hi := by
  unfold crange
  simp only [List.mem_map, List.mem_range]
  constructor
  · rintro ⟨t, ht, rfl⟩
    omega
  · rintro ⟨h1, h2⟩
    exact ⟨(i - lo).toNat, by omega, by omega⟩

theorem length_crange (lo hi : Int) :
    (crange lo hi).length = (hi + 1 - lo).toNat := by
  unfold crange
  rw [List.length_map, List.length_range]

theorem crange_eq_nil {lo hi : Int} (h : hi < lo) : crange lo hi = [] := by
  unfold crange
  have h0 : (hi + 1 - lo).toNat = 0 := by omega
  rw [h0]
  rfl

theorem mem_tapOffsets {kDim i : Int} :
    i ∈ tapOffsets kDim ↔
      -(kDim / 2) ≤ i ∧ i ≤ kDim / 2 - (if kDim % 2 = 0 then 1 else 0) := by
  unfold tapOffsets
  exact mem_crange

theorem sum_map_add (B : List β) (p q : β → ℚ) :
    (B.map (fun b => p b + q b)).sum = (B.map p).sum + (B.map q).sum := by
  induction B with
  | nil => simp
  | cons b B ih => simp [ih]; ring

theorem sum_sum_comm (A : List α) (B : List β) (h : α → β → ℚ) :
    (A.map (fun a => (B.map (fun b => h a b)).sum)).sum
      = (B.map (fun b => (A.map (fun a => h a b)).sum)).sum := by
  induction A with
  | nil => simp
  | cons a A ih =>
      simp only [List.map_cons, List.sum_cons, ih, sum_map_add]

theorem flatten_getElem (L : List (List ℚ)) (w : ℕ)
    (hw : ∀ l ∈ L, l.length = w) (a b : ℕ) (hb : b < w) :
    L.flatten[a * w + b]? = L[a]?.bind (fun l => l[b]?) := by
  induction L generalizing a with
  | nil => simp
  | cons l L ih =>
      have hl : l.length = w := hw l (by simp)
      cases a with
      | zero =>
          simp only [Nat.zero_mul, Nat.zero_add, List.flatten_cons]
          rw [List.getElem?_append_left (by omega)]
          simp
      | succ a =>
          simp only [List.flatten_cons]
          rw [List.getElem?_append_right (by nlinarith)]
          have h2 : (a + 1) * w + b - l.length = a * w + b := by
            rw [hl]; ring_nf; omega
          rw [h2, ih (fun x hx => hw x (by simp [hx]))]
          simp

/-- C1: the spec's boundary policy says a tap whose feature coordinate has a
negative column contributes exactly `0.0`.  In `src/unnamed/part_000` the
guard omits the `row >= 0` test, so the tap at kernel offset `(0, -1)` for
output cell `(1, 0)` of the `[[1,2],[3,4]]` feature with a `1×3` all-ones
kernel reads `f[IDX(1, -1, 2)] = f[1] = 2` instead of contributing `0`,
and the cell accumulates `9` where the documented policy yields `7` (the
value computed by the correctly guarded `parallel_conv2d` of
`src/conv2d.c`). -/
theorem c1_negative_column_tap_not_zero :
    Part000.tap featSmall 2 2 1 0 0 (-1) = 2
      ∧ Part000.cell featSmall 2 2 kernelRow3 1 3 1 0 = 9
      ∧ ConvC.parallelCell featSmall 2 2 kernelRow3 1 3 1 0 = 7 := by
  refine ⟨?_, ?_, ?_⟩
  · simp [Part000.tap, IDX, featSmall]
  · simp [Part000.cell, Part000.tap, IDX, featSmall, kernelRow3,
      show tapOffsets 1 = [0] from by decide,
      show tapOffsets 3 = [-1, 0, 1] from by decide]
    norm_num
  · simp [ConvC.parallelCell, ConvC.ptap, IDX, featSmall, kernelRow3,
      show tapOffsets 1 = [0] from by decide,
      show tapOffsets 3 = [-1, 0, 1] from by decide]
    norm_num

/-- C5: boundary example, feature `3×3` all `1.0`, kernel `3×3` all `1/9`.
The centre cell `(1,1)` and the edge-midpoint cell `(0,1)` match the spec
(`1.000` and `0.667 ± 0.001`), but because the guard in
`src/unnamed/part_000` omits the `row >= 0` test the corner cell `(0,0)`
accumulates `5/9 ≈ 0.556` (4 valid taps plus a stray in-buffer read of
`feature[0][2]`; the read of flat index `-1` is modelled as `0`), which is
outside the spec's `0.444 ± 0.001`. -/
theorem c5_boundary_example :
    Part000.cell featOnes3 3 3 kernelNinth3 3 3 1 1 = 1
      ∧ Part000.cell featOnes3 3 3 kernelNinth3 3 3 0 1 = 2/3
      ∧ Part000.cell featOnes3 3 3 kernelNinth3 3 3 0 0 = 5/9
      ∧ Part000.parallelCell featOnes3 3 3 kernelNinth3 3 3 0 0 = 5/9
      ∧ 1/1000 < |Part000.cell featOnes3 3 3 kernelNinth3 3 3 0 0 - 444/1000| := by
  have t3 : tapOffsets 3 = [-1, 0, 1] := by decide
  refine ⟨?_, ?_, ?_, ?_, ?_⟩ <;>
    simp [Part000.cell, Part000.parallelCell, Part000.tap, IDX,
      featOnes3, kernelNinth3, t3] <;> norm_num
  all_goals rw [abs_of_pos] <;> norm_num

/-- C10: neither convolver in either program variant can signal failure
through its return value: all four functions end in `return 0`
unconditionally, for every feature map, kernel, dimension values
(including non-positive ones) and padding arguments. -/
theorem c10_return_always_zero (f g : Int → ℚ)
    (H W kH kW w_padding h_padding : Int) :
    (Part000.conv2d f H W g kH kW).2 = 0
      ∧ (Part000.parallel_conv2d f H W g kH kW).2 = 0
      ∧ (ConvC.conv2d f H W g kH kW w_padding h_padding).2 = 0
      ∧ (ConvC.parallel_conv2d f H W g kH kW).2 = 0 :=
  ⟨rfl, rfl, rfl, rfl⟩

/-- C9 counterexample: a call with feature height `-1 ≤ 0` reaching the
core convolutions is not rejected: every error path of this repository
signals through a nonzero return code, yet both `conv2d` and
`parallel_conv2d` of both variants return `0` (and silently produce no
output cells) on this degenerate input. -/
theorem c9_counterexample :
    (Part000.conv2d featSmall (-1) 2 kernelRow3 3 3).2 = 0
      ∧ (Part000.conv2d featSmall (-1) 2 kernelRow3 3 3).1 = []
      ∧ (Part000.parallel_conv2d featSmall (-1) 2 kernelRow3 3 3).2 = 0
      ∧ (Part000.parallel_conv2d featSmall (-1) 2 kernelRow3 3 3).1 = []
      ∧ (ConvC.conv2d featSmall (-1) 2 kernelRow3 3 3 1 1).2 = 0
      ∧ (ConvC.parallel_conv2d featSmall (-1) 2 kernelRow3 3 3).2 = 0 := by
  refine ⟨rfl, ?_, rfl, ?_, rfl, rfl⟩ <;>
    simp [Part000.conv2d, Part000.parallel_conv2d,
      show crange 0 (-2) = [] from by decide]

/-- C9 amended: the core performs no dimension validation at all.  A
non-positive feature or kernel dimension is accepted: all four convolvers
of both variants still return status `0`, and a non-positive feature
height or width merely makes the output loops of all four convolvers
execute zero iterations, so that no output cell is written. -/
theorem c9_amended (f g : Int → ℚ) (H W kH kW w_padding h_padding : Int)
    (hdeg : H ≤ 0 ∨ W ≤ 0 ∨ kH ≤ 0 ∨ kW ≤ 0) :
    (Part000.conv2d f H W g kH kW).2 = 0
      ∧ (Part000.parallel_conv2d f H W g kH kW).2 = 0
      ∧ (ConvC.conv2d f H W g kH kW w_padding h_padding).2 = 0
      ∧ (ConvC.parallel_conv2d f H W g kH kW).2 = 0
      ∧ (H ≤ 0 ∨ W ≤ 0 →
          (Part000.conv2d f H W g kH kW).1 = []
            ∧ (Part000.parallel_conv2d f H W g kH kW).1 = []
            ∧ (ConvC.conv2d f H W g kH kW w_padding h_padding).1 = []
            ∧ (ConvC.parallel_conv2d f H W g kH kW).1 = []) := by
  refine ⟨rfl, rfl, rfl, rfl, fun hHW => ?_⟩
  rcases hHW with hH | hW
  · have h0 : crange 0 (H - 1) = [] := crange_eq_nil (by omega)
    have h0c : crange h_padding (H + h_padding * 2 - h_padding - 1) = [] :=
      crange_eq_nil (by omega)
    refine ⟨?_, ?_, ?_, ?_⟩ <;>
      simp [Part000.conv2d, Part000.parallel_conv2d, ConvC.conv2d,
        ConvC.parallel_conv2d, h0, h0c]
  · have h0 : crange 0 (W - 1) = [] := crange_eq_nil (by omega)
    have h0c : crange w_padding (W + w_padding * 2 - w_padding - 1) = [] :=
      crange_eq_nil (by omega)
    refine ⟨?_, ?_, ?_, ?_⟩ <;>
      simp [Part000.conv2d, Part000.parallel_conv2d, ConvC.conv2d,
        ConvC.parallel_conv2d, h0, h0c]

/-- C9 amended, witness at the concrete degenerate input `W = 0`. -/
theorem c9_amended_witness :
    ((2 : Int) ≤ 0 ∨ (0 : Int) ≤ 0 ∨ (3 : Int) ≤ 0 ∨ (3 : Int) ≤ 0)
      ∧ ((Part000.conv2d featSmall 2 0 kernelRow3 3 3).2 = 0
          ∧ (Part000.parallel_conv2d featSmall 2 0 kernelRow3 3 3).2 = 0
          ∧ (ConvC.conv2d featSmall 2 0 kernelRow3 3 3 1 1).2 = 0
          ∧ (ConvC.parallel_conv2d featSmall 2 0 kernelRow3 3 3).2 = 0
          ∧ ((2 : Int) ≤ 0 ∨ (0 : Int) ≤ 0 →
              (Part000.conv2d featSmall 2 0 kernelRow3 3 3).1 = []
                ∧ (Part000.parallel_conv2d featSmall 2 0 kernelRow3 3 3).1 = []
                ∧ (ConvC.conv2d featSmall 2 0 kernelRow3 3 3 1 1).1 = []
                ∧ (ConvC.parallel_conv2d featSmall 2 0 kernelRow3 3 3).1 = [])) :=
  ⟨Or.inr (Or.inl (by norm_num)),
    c9_amended featSmall kernelRow3 2 0 3 3 1 1 (Or.inr (Or.inl (by norm_num)))⟩

/-- C2: serial/parallel agreement.  For dimensions in the tested envelope
(feature up to `64 × 64`, kernel up to `7 × 7`) and every output cell
`(n, k)`, the serial cell of `conv2d` and the parallel cell of
`parallel_conv2d` in `src/unnamed/part_000` differ by less than `1e-4`;
in this exact-arithmetic model the two loop nests sum the same taps in a
different order, so the cells are in fact equal and the difference is `0`. -/
theorem c2_serial_parallel_agree (f g : Int → ℚ) (H W kH kW n k : Int)
    (hH1 : 1 ≤ H) (hH2 : H ≤ 64) (hW1 : 1 ≤ W) (hW2 : W ≤ 64)
    (hkH1 : 1 ≤ kH) (hkH2 : kH ≤ 7) (hkW1 : 1 ≤ kW) (hkW2 : kW ≤ 7)
    (hn1 : 0 ≤ n) (hn2 : n < H) (hk1 : 0 ≤ k) (hk2 : k < W) :
    |Part000.cell f H W g kH kW n k
      - Part000.parallelCell f H W g kH kW n k| < 1/10000 := by
  have heq : Part000.cell f H W g kH kW n k
      = Part000.parallelCell f H W g kH kW n k := by
    unfold Part000.cell Part000.parallelCell
    exact sum_sum_comm (tapOffsets kH) (tapOffsets kW) _
  rw [heq, sub_self, abs_zero]
  norm_num

/-- C2, witness at a concrete cell of the `[[1,2],[3,4]]` feature with the
`1×3` all-ones kernel. -/
theorem c2_witness :
    |Part000.cell featSmall 2 2 kernelRow3 1 3 1 0
      - Part000.parallelCell featSmall 2 2 kernelRow3 1 3 1 0| < 1/10000 :=
  c2_serial_parallel_agree featSmall kernelRow3 2 2 1 3 1 0
    (by norm_num) (by norm_num) (by norm_num) (by norm_num)
    (by norm_num) (by norm_num) (by norm_num) (by norm_num)
    (by norm_num) (by norm_num) (by norm_num) (by norm_num)

/-- C4: both convolvers iterate the tap offsets of an axis of size `kDim`
through `tapOffsets kDim` (the loop `for (i = -M; i <= M - M_offset; i++)`
with `M = kDim/2`).  For `kDim ≥ 1` these are exactly the integers of
`[-(kDim/2), kDim/2 - (1 if kDim even else 0)]`, `kDim` of them, and in
particular `{-1, 0}` for size `2` and `{-2,-1,0,1}` for size `4`: the
extra tap of an even axis falls on the negative-offset side. -/
theorem c4_tap_offset_ranges (kDim : Int) (h : 1 ≤ kDim) :
    (tapOffsets kDim).length = kDim.toNat
      ∧ (∀ i : Int, i ∈ tapOffsets kDim ↔
          -(kDim / 2) ≤ i ∧ i ≤ kDim / 2 - (if kDim % 2 = 0 then 1 else 0))
      ∧ tapOffsets 2 = [-1, 0]
      ∧ tapOffsets 4 = [-2, -1, 0, 1] := by
  refine ⟨?_, fun i => mem_tapOffsets, by decide, by decide⟩
  rw [tapOffsets, length_crange]
  by_cases h2 : kDim % 2 = 0 <;> simp [h2] <;> omega

/-- C4, witness at axis size `3`. -/
theorem c4_witness :
    (1 : Int) ≤ 3
      ∧ ((tapOffsets 3).length = (3 : Int).toNat
          ∧ (∀ i : Int, i ∈ tapOffsets 3 ↔
              -((3 : Int) / 2) ≤ i
                ∧ i ≤ (3 : Int) / 2 - (if (3 : Int) % 2 = 0 then 1 else 0))
          ∧ tapOffsets 2 = [-1, 0]
          ∧ tapOffsets 4 = [-2, -1, 0, 1]) :=
  ⟨by norm_num, c4_tap_offset_ranges 3 (by norm_num)⟩

/-- C7: with a `1×1` kernel, both convolvers of `src/unnamed/part_000`
degenerate to an exact elementwise scale: every output cell `(n, k)` holds
exactly `feature[n,k] * kernel[0,0]`, and with `kernel[0,0] = 1` exactly
the feature value. -/
theorem c7_one_by_one_kernel (f g : Int → ℚ) (H W n k : Int)
    (hn1 : 0 ≤ n) (hn2 : n < H) (hk1 : 0 ≤ k) (hk2 : k < W) :
    Part000.cell f H W g 1 1 n k = f (IDX n k W) * g 0
      ∧ Part000.parallelCell f H W g 1 1 n k = f (IDX n k W) * g 0
      ∧ (g 0 = 1 → Part000.cell f H W g 1 1 n k = f (IDX n k W)) := by
  have t1 : tapOffsets 1 = [0] := by decide
  have hmain : Part000.cell f H W g 1 1 n k = f (IDX n k W) * g 0 := by
    simp [Part000.cell, Part000.tap, t1, IDX, hn1, hn2, hk2]
  have hpar : Part000.parallelCell f H W g 1 1 n k = f (IDX n k W) * g 0 := by
    simp [Part000.parallelCell, Part000.tap, t1, IDX, hn1, hn2, hk2]
  exact ⟨hmain, hpar, fun hg => by rw [hmain, hg, mul_one]⟩

/-- C7, witness at cell `(1, 1)` of the `[[1,2],[3,4]]` feature with the
identity `1×1` kernel. -/
theorem c7_witness :
    (0 : Int) ≤ 1 ∧ (1 : Int) < 2
      ∧ (Part000.cell featSmall 2 2 kernelRow3 1 1 1 1
            = featSmall (IDX 1 1 2) * kernelRow3 0
          ∧ Part000.parallelCell featSmall 2 2 kernelRow3 1 1 1 1
            = featSmall (IDX 1 1 2) * kernelRow3 0
          ∧ (kernelRow3 0 = 1 →
              Part000.cell featSmall 2 2 kernelRow3 1 1 1 1
                = featSmall (IDX 1 1 2))) :=
  ⟨by norm_num, by norm_num,
    c7_one_by_one_kernel featSmall kernelRow3 2 2 1 1
      (by norm_num) (by norm_num) (by norm_num) (by norm_num)⟩

/-- C8: every kernel read of the convolvers is in bounds: for tap offsets
`(i, j)` in the iterated ranges, the kernel coordinate
`(i + kH/2, j + kW/2)` lies in `[0, kH) × [0, kW)`. -/
theorem c8_kernel_reads_in_bounds (kH kW : Int) (hkH : 1 ≤ kH) (hkW : 1 ≤ kW)
    (i : Int) (hi : i ∈ tapOffsets kH) (j : Int) (hj : j ∈ tapOffsets kW) :
    (0 ≤ i + kH / 2 ∧ i + kH / 2 < kH)
      ∧ (0 ≤ j + kW / 2 ∧ j + kW / 2 < kW) := by
  have hi' := mem_tapOffsets.mp hi
  have hj' := mem_tapOffsets.mp hj
  constructor
  · by_cases h2 : kH % 2 = 0 <;> simp [h2] at hi' <;> omega
  · by_cases h2 : kW % 2 = 0 <;> simp [h2] at hj' <;> omega

/-- C8, witness for a `2 × 3` kernel at tap offset `(-1, 1)`. -/
theorem c8_witness :
    (1 : Int) ≤ 2 ∧ (1 : Int) ≤ 3
      ∧ (-1 : Int) ∈ tapOffsets 2 ∧ (1 : Int) ∈ tapOffsets 3
      ∧ ((0 ≤ (-1 : Int) + 2 / 2 ∧ (-1 : Int) + 2 / 2 < 2)
          ∧ (0 ≤ (1 : Int) + 3 / 2 ∧ (1 : Int) + 3 / 2 < 3)) :=
  ⟨by norm_num, by norm_num, by decide, by decide,
    c8_kernel_reads_in_bounds 2 3 (by norm_num) (by norm_num)
      (-1) (by decide) 1 (by decide)⟩

theorem crange_getElem (lo hi : Int) (t : ℕ) (ht : t < (hi + 1 - lo).toNat) :
    (crange lo hi)[t]? = some (lo + (t : Int)) := by
  unfold crange
  rw [List.getElem?_map, List.getElem?_range ht]
  rfl

theorem flatten_rows_length (H W : Int) (cellf : Int → Int → ℚ)
    (hH : 0 ≤ H) (hW : 0 ≤ W) :
    (((crange 0 (H - 1)).map (fun n =>
        (crange 0 (W - 1)).map (fun k => cellf n k))).flatten).length
      = H.toNat * W.toNat := by
  rw [List.length_flatten, List.map_map]
  have hconst : (List.length ∘ fun n =>
      (crange 0 (W - 1)).map (fun k => cellf n k)) = fun _ => W.toNat := by
    funext n
    simp [length_crange]
  rw [hconst, List.map_const', List.sum_replicate, smul_eq_mul,
    length_crange]
  have : (H - 1 + 1 - 0).toNat = H.toNat := by omega
  rw [this]

theorem flatten_rows_getElem (H W : Int) (cellf : Int → Int → ℚ) (n k : Int)
    (hn1 : 0 ≤ n) (hn2 : n < H) (hk1 : 0 ≤ k) (hk2 : k < W) :
    (((crange 0 (H - 1)).map (fun n =>
        (crange 0 (W - 1)).map (fun k => cellf n k))).flatten)[(n * W + k).toNat]?
      = some (cellf n k) := by
  have hidx : (n * W + k).toNat = n.toNat * W.toNat + k.toNat := by
    have : n * W = (n.toNat : Int) * (W.toNat : Int) := by
      rw [Int.toNat_of_nonneg hn1, Int.toNat_of_nonneg (by omega : (0:Int) ≤ W)]
    omega
  rw [hidx]
  rw [flatten_getElem _ W.toNat ?_ n.toNat k.toNat (by omega)]
  · rw [List.getElem?_map, crange_getElem 0 (H - 1) n.toNat (by omega)]
    simp only [Option.map_some', Option.some_bind]
    rw [List.getElem?_map, crange_getElem 0 (W - 1) k.toNat (by omega),
      Option.map_some']
    have h1 : (0 : Int) + (n.toNat : Int) = n := by omega
    have h2 : (0 : Int) + (k.toNat : Int) = k := by omega
    rw [h1, h2]
  · intro l hl
    obtain ⟨m, _, rfl⟩ := List.mem_map.mp hl
    rw [List.length_map, length_crange]
    omega

/-- C6: for all `H, W ≥ 1` and `kH, kW ≥ 1` — including kernels larger
than the feature map — both convolvers of `src/unnamed/part_000` produce a
row-major output of exactly `H * W` cells, and the entry at flat index
`n*W + k` is exactly the accumulated value for cell `(n, k)`, for every
`(n, k) ∈ [0,H) × [0,W)`. -/
theorem c6_output_dimensions (f g : Int → ℚ) (H W kH kW : Int)
    (hH : 1 ≤ H) (hW : 1 ≤ W) (hkH : 1 ≤ kH) (hkW : 1 ≤ kW) :
    (Part000.conv2d f H W g kH kW).1.length = H.toNat * W.toNat
      ∧ (Part000.parallel_conv2d f H W g kH kW).1.length = H.toNat * W.toNat
      ∧ ∀ n k : Int, 0 ≤ n → n < H → 0 ≤ k → k < W →
          (Part000.conv2d f H W g kH kW).1[(n * W + k).toNat]?
              = some (Part000.cell f H W g kH kW n k)
            ∧ (Part000.parallel_conv2d f H W g kH kW).1[(n * W + k).toNat]?
              = some (Part000.parallelCell f H W g kH kW n k) := by
  refine ⟨?_, ?_, fun n k hn1 hn2 hk1 hk2 => ⟨?_, ?_⟩⟩
  · exact flatten_rows_length H W _ (by omega) (by omega)
  · exact flatten_rows_length H W _ (by omega) (by omega)
  · exact flatten_rows_getElem H W _ n k hn1 hn2 hk1 hk2
  · exact flatten_rows_getElem H W _ n k hn1 hn2 hk1 hk2

/-- C6, witness with a `3×3` kernel over a `2×2` feature map (kernel larger
than the feature map). -/
theorem c6_witness :
    (1 : Int) ≤ 2 ∧ (1 : Int) ≤ 3
      ∧ ((Part000.conv2d featSmall 2 2 kernelNinth3 3 3).1.length
            = (2 : Int).toNat * (2 : Int).toNat
          ∧ (Part000.parallel_conv2d featSmall 2 2 kernelNinth3 3 3).1.length
            = (2 : Int).toNat * (2 : Int).toNat
          ∧ ∀ n k : Int, 0 ≤ n → n < 2 → 0 ≤ k → k < 2 →
              (Part000.conv2d featSmall 2 2 kernelNinth3 3 3).1[(n * 2 + k).toNat]?
                  = some (Part000.cell featSmall 2 2 kernelNinth3 3 3 n k)
                ∧ (Part000.parallel_conv2d featSmall 2 2 kernelNinth3 3 3).1[(n * 2 + k).toNat]?
                  = some (Part000.parallelCell featSmall 2 2 kernelNinth3 3 3 n k)) :=
  ⟨by norm_num, by norm_num,
    c6_output_dimensions featSmall kernelNinth3 2 2 3 3
      (by norm_num) (by norm_num) (by norm_num) (by norm_num)⟩

/-- C3: the two boundary strategies of the two observed program variants do
not produce identical numeric results.  On the feature `[[1,2],[3,4]]` with
the `1×3` all-ones kernel, the explicitly materialized zero-padded copy
strategy (`conv2d` of `src/conv2d.c`, reading a `2×4` buffer holding the
feature inside a ring of zeros) produces `[3, 3, 7, 7]`, while the
bounds-checked strategy as implemented in `src/unnamed/part_000` produces
`[3, 3, 9, 7]`: its guard omits `row >= 0`, so the cell `(1,0)` picks up
`feature[0][1]` at column coordinate `-1` instead of a zero. -/
theorem c3_strategies_disagree :
    (ConvC.conv2d (ConvC.paddedCopy featSmall 2 2 1 0)
        2 2 kernelRow3 1 3 1 0).1 = [3, 3, 7, 7]
      ∧ (Part000.conv2d featSmall 2 2 kernelRow3 1 3).1 = [3, 3, 9, 7] := by
  constructor
  · simp [ConvC.conv2d, ConvC.cell, ConvC.paddedCopy, IDX,
      featSmall, kernelRow3,
      show crange 0 1 = [0, 1] from by decide,
      show crange 1 2 = [1, 2] from by decide,
      show tapOffsets 1 = [0] from by decide,
      show tapOffsets 3 = [-1, 0, 1] from by decide]
    norm_num
  · simp [Part000.conv2d, Part000.cell, Part000.tap, IDX,
      featSmall, kernelRow3,
      show crange 0 1 = [0, 1] from by decide,
      show tapOffsets 1 = [0] from by decide,
      show tapOffsets 3 = [-1, 0, 1] from by decide]
    norm_num

theorem paddedCopy_decode (feat : Int → ℚ) (H W wp hp r c : Int)
    (hr : 0 ≤ r) (hc : 0 ≤ c) (hcw : c < W + wp * 2) :
    ConvC.paddedCopy feat H W wp hp (IDX r c (W + wp * 2))
      = if hp ≤ r ∧ r < hp + H ∧ wp ≤ c ∧ c < wp + W
        then feat (IDX (r - hp) (c - wp) W) else 0 := by
  unfold ConvC.paddedCopy IDX
  have hdiv : (r * (W + wp * 2) + c) / (W + wp * 2) = r := by
    rw [add_comm, Int.add_mul_ediv_right _ _ (by omega : W + wp * 2 ≠ 0),
      Int.ediv_eq_zero_of_lt hc hcw, zero_add]
  have hmod : (r * (W + wp * 2) + c) % (W + wp * 2) = c := by
    rw [add_comm, Int.add_mul_emod_self, Int.emod_eq_of_lt hc hcw]
  simp only [hdiv, hmod]

/-- The materialized zero-padded-copy strategy of `conv2d` in
`src/conv2d.c` agrees exactly, in every output cell, with the
bounds-checked zero-substitution strategy as long as the bounds check is
the documented one (the guard of `parallel_conv2d` in `src/conv2d.c`,
which does test `ROW >= 0`): the claim C3 is about the two strategies per
se, and fails only because of the slipped guard of
`src/unnamed/part_000`. -/
theorem paddedCopy_cell_eq_boundscheck (feat g : Int → ℚ)
    (H W kH kW n k : Int) (hkH : 1 ≤ kH) (hkW : 1 ≤ kW)
    (hn1 : 0 ≤ n) (hn2 : n < H) (hk1 : 0 ≤ k) (hk2 : k < W) :
    ConvC.cell (ConvC.paddedCopy feat H W (kW / 2) (kH / 2)) W g kH kW
        (kW / 2) (n + kH / 2) (k + kW / 2)
      = ConvC.parallelCell feat H W g kH kW n k := by
  unfold ConvC.cell ConvC.parallelCell
  rw [sum_sum_comm]
  apply congrArg List.sum
  apply List.map_congr_left
  intro j hj
  apply congrArg List.sum
  apply List.map_congr_left
  intro i hi
  have hib : -(kH / 2) ≤ i ∧ i ≤ kH / 2 := by
    have h := mem_tapOffsets.mp hi
    by_cases h2 : kH % 2 = 0 <;> simp [h2] at h <;> omega
  have hjb : -(kW / 2) ≤ j ∧ j ≤ kW / 2 := by
    have h := mem_tapOffsets.mp hj
    by_cases h2 : kW % 2 = 0 <;> simp [h2] at h <;> omega
  have hkH2 : 0 ≤ kH / 2 := by omega
  have hkW2 : 0 ≤ kW / 2 := by omega
  unfold ConvC.ptap
  rw [paddedCopy_decode feat H W (kW / 2) (kH / 2) (n + kH / 2 + i)
      (k + kW / 2 + j) (by omega) (by omega) (by omega)]
  congr 1
  rw [show n + kH / 2 + i - kH / 2 = n + i from by ring,
    show k + kW / 2 + j - kW / 2 = k + j from by ring]
  exact if_congr (by omega) rfl rfl
